import Mathlib

/-!
Verification of the sequence-recovery-benchmark command-line tool
(`run_benchmark.py`) against its natural-language specification.

The development shallowly embeds the two pieces of real logic of the
program:

* the `Check_set` command (`check_set`): chain-list normalization and
  overlap resolution between a training set and a testing set;
* the `Compare` command (`compare_models`): accuracy ranking, 8-model
  cap enforcement, reference-model (EvoEF2) injection, the positional
  must-include merge, and the order of visualization side effects.

Python strings are modelled as Lean `String` with character-level
operations (Python's `.upper()`, `.split()` and comparison are
ASCII-lexicographic on the inputs this tool handles); Python floats are
modelled as `ℚ` (the algorithm only compares accuracies, and comparison
of the decimal accuracy values used coincides with rational
comparison); Python exceptions are modelled with `Except`.
-/

namespace SeqBench

instance {ε α : Type u} [DecidableEq ε] [DecidableEq α] : DecidableEq (Except ε α) :=
  fun x y =>
    match x, y with
    | .ok a, .ok b =>
      if h : a = b then isTrue (by rw [h])
      else isFalse (by intro he; exact h (Except.ok.inj he))
    | .error a, .error b =>
      if h : a = b then isTrue (by rw [h])
      else isFalse (by intro he; exact h (Except.error.inj he))
    | .ok _, .error _ => isFalse (by intro he; exact Except.noConfusion he)
    | .error _, .ok _ => isFalse (by intro he; exact Except.noConfusion he)

/-! ### Check_set: chain-identifier normalization (run_benchmark.py lines 31-37) -/

/-- Auxiliary splitter for Python's `str.split()` with no argument:
splits on runs of whitespace, dropping empty fields.  `acc` is the
current (reversed) partial token. -/
def splitWsAux : List Char → List Char → List (List Char)
  | [], acc => if acc = [] then [] else [acc.reverse]
  | c :: cs, acc =>
    if c.isWhitespace then
      if acc = [] then splitWsAux cs [] else acc.reverse :: splitWsAux cs []
    else splitWsAux cs (c :: acc)

/-- Python `s.split()` (no separator argument). -/
def pySplit (s : String) : List String := (splitWsAux s.data []).map String.mk

/-- Python `s.upper()` for the ASCII identifiers this tool handles. -/
def pyUpper (s : String) : String := String.mk (s.data.map Char.toUpper)

/-- `x.split()[0]`: the first whitespace-delimited token of a line;
`none` models the `IndexError` Python raises on a whitespace-only line.
The subsequent `.strip("\x5cn")` of the source is a no-op because
`split()` already removes the newline. -/
def lineToken (l : String) : Option String := (pySplit l).head?

/-- One chain identifier per input line:
`x.split()[0].strip("\x5cn").upper()` for every line of the file, in
file order; `none` models the `IndexError` on the first line with no
token. -/
def normalizeChains : List String → Option (List String)
  | [] => some []
  | l :: rest =>
    match lineToken l with
    | none => none
    | some t =>
      match normalizeChains rest with
      | some ts => some (pyUpper t :: ts)
      | none => none

/-- The training-set reader (lines 31-35): normalize every line, then
drop the first record when its token length is not 5 (PISCES header
detection).  `none` models the `IndexError` on an empty file. -/
def loadTrainingChains (lines : List String) : Option (List String) := do
  let chains ← normalizeChains lines
  match chains with
  | [] => none
  | c :: rest => if c.length ≠ 5 then pure rest else pure (c :: rest)

/-- The dataset reader (lines 36-37): normalization only, no header
handling. -/
def loadTestingChains (lines : List String) : Option (List String) :=
  normalizeChains lines

/-! ### Check_set: overlap resolution (run_benchmark.py lines 39-50) -/

/-- `repeated_chains = [x for x in testing_chains if x in training_chains]`. -/
def repeatedChains (training testing : List String) : List String :=
  testing.filter (fun x => decide (x ∈ training))

/-- The clean benchmarking set printed at lines 48-50:
`[chain for chain in testing_chains if chain not in repeated_chains]`. -/
def cleanChains (training testing : List String) : List String :=
  testing.filter (fun x => decide (x ∉ repeatedChains training testing))

/-- The whole `Check_set` command as a function from the two files'
lines to the (overlap, clean) pair it reports. -/
def checkSet (trainingLines testingLines : List String) :
    Option (List String × List String) := do
  let training ← loadTrainingChains trainingLines
  let testing ← loadTestingChains testingLines
  pure (repeatedChains training testing, cleanChains training testing)

/-! ### Compare: the model pool and the accuracy ranking
(run_benchmark.py lines 147-192 and 233-255) -/

/-- One candidate model of the pool: the ModelName (a `.csv` file name
from `os.listdir`), the overall accuracy computed for it by the scoring
loop, and its opaque prediction matrix. -/
structure PoolEntry (Mat : Type) where
  name : String
  acc : ℚ
  mat : Mat
deriving DecidableEq, Repr

/-- The order `sorted(accuracy)` sorts by: Python compares the
`[accuracy, model]` records lexicographically, numerically on the
accuracy and code-point-lexicographically on the model name. -/
def pairLe (a b : ℚ × String) : Prop :=
  a.1 < b.1 ∨ (a.1 = b.1 ∧ a.2.data ≤ b.2.data)

instance : DecidableRel pairLe := fun a b =>
  inferInstanceAs (Decidable (a.1 < b.1 ∨ (a.1 = b.1 ∧ a.2.data ≤ b.2.data)))

instance : IsTotal (ℚ × String) pairLe := by
  constructor
  intro a b
  rcases lt_trichotomy a.1 b.1 with h | h | h
  · exact Or.inl (Or.inl h)
  · rcases le_total a.2.data b.2.data with h2 | h2
    · exact Or.inl (Or.inr ⟨h, h2⟩)
    · exact Or.inr (Or.inr ⟨h.symm, h2⟩)
  · exact Or.inr (Or.inl h)

instance : IsTrans (ℚ × String) pairLe := by
  constructor
  rintro a b c (hab | ⟨hab, hab2⟩) (hbc | ⟨hbc, hbc2⟩)
  · exact Or.inl (lt_trans hab hbc)
  · exact Or.inl (hbc ▸ hab)
  · exact Or.inl (hab ▸ hbc)
  · exact Or.inr ⟨hab.trans hbc, le_trans hab2 hbc2⟩

/-- Python's `sorted` on the accuracy records.  `pairLe` is a total
antisymmetric order, so the ascending sorted permutation is unique and
any correct sort computes it; we use insertion sort. -/
def pySorted (l : List (ℚ × String)) : List (ℚ × String) :=
  List.insertionSort pairLe l

/-- Python's `l[-n:]` for `n > 0`: the last `n` elements. -/
def lastN (n : Nat) (l : List α) : List α := l.drop (l.length - n)

/-- The errors the Compare command can raise past argument validation:
`ValueError` for an oversized include list (line 253), `KeyError` for a
`list_of_models[...]` lookup of an unknown name, `IndexError` for a
`filtered_models[index]` assignment out of range, and `NameError` for
the unbound loop variable `model` at line 230 when the pool is empty. -/
inductive SelErr where
  | valueError
  | keyError
  | indexError
  | nameError
deriving DecidableEq, Repr

/-- Lookup in the `list_of_models` dictionary. -/
def lookupModel (pool : List (PoolEntry Mat)) (n : String) : Option Mat :=
  match pool with
  | [] => none
  | e :: rest => if e.name = n then some e.mat else lookupModel rest n

/-- The `accuracy` list built by the scoring loop (lines 182-192): one
`[score, model]` record per pool model, in pool order. -/
def accuracyList (pool : List (PoolEntry Mat)) : List (ℚ × String) :=
  pool.map (fun e => (e.acc, e.name))

/-- The must-include merge loop (lines 248-251): for each
`(index, model_name)` of `enumerate(models_to_include)`, if the name is
not already among the selected labels, overwrite position `index` of
the selection with `(model_name, list_of_models[model_name])`.  A name
missing from the pool raises `KeyError`; an index beyond the selection
raises `IndexError`. -/
def mustMerge (pool : List (PoolEntry Mat)) :
    List String → List (String × Mat) → Nat → Except SelErr (List (String × Mat))
  | [], sel, _ => .ok sel
  | n :: rest, sel, i =>
    if n ∈ sel.map Prod.fst then mustMerge pool rest sel (i + 1)
    else
      match lookupModel pool n with
      | none => .error .keyError
      | some m =>
        if i < sel.length then mustMerge pool rest (sel.set i (n, m)) (i + 1)
        else .error .indexError

/-- The list comprehensions of lines 236-237 and 243-244: turn a list
of kept accuracy records into (label, matrix) entries, resolving every
record's model name through the `list_of_models` dictionary
(a missing name is a `KeyError`). -/
def resolveNames (pool : List (PoolEntry Mat)) :
    List (ℚ × String) → Except SelErr (List (String × Mat))
  | [] => .ok []
  | p :: rest =>
    match lookupModel pool p.2 with
    | none => .error .keyError
    | some m =>
      match resolveNames pool rest with
      | .ok b => .ok ((p.2, m) :: b)
      | .error err => .error err

/-- The ranked base selection (lines 233-244): sort the accuracy
records ascending; with a reference take the 7 best and append
`("EvoEF2", reference)`, otherwise take the 8 best; each kept record's
name is resolved through `list_of_models`. -/
def baseSelection (pool : List (PoolEntry Mat)) (ref : Option Mat) :
    Except SelErr (List (String × Mat)) :=
  let ranked := pySorted (accuracyList pool)
  match ref with
  | some r =>
    match resolveNames pool (lastN 7 ranked) with
    | .ok best => .ok (best ++ [("EvoEF2", r)])
    | .error err => .error err
  | none => resolveNames pool (lastN 8 ranked)

/-- The Ranker & Selector (lines 233-255): ranked base selection, then
the must-include pass, which first rejects lists longer than 8 models
with a `ValueError`. -/
def select (pool : List (PoolEntry Mat)) (ref : Option Mat)
    (mustInclude : Option (List String)) : Except SelErr (List (String × Mat)) := do
  let base ← baseSelection pool ref
  match mustInclude with
  | none => pure base
  | some names =>
    if names.length ≤ 8 then mustMerge pool names base 0
    else Except.error SelErr.valueError

/-- Specification-side restatement of the must-include policy (spec
section 4.3 step 4), written from the spec's words for the refinement
claim: for each name at positional index `i` of the list, overwrite
whatever entry currently occupies position `i` of the selection with
`(name, pool[name])`, but only if that name is not already present in
the current selection. -/
def specMustIncludeMerge (pool : List (PoolEntry Mat)) (names : List String)
    (sel : List (String × Mat)) : List (String × Mat) :=
  names.enum.foldl (fun cur p =>
    if p.2 ∈ cur.map Prod.fst then cur
    else
      match lookupModel pool p.2 with
      | some m => cur.set p.1 (p.2, m)
      | none => cur) sel

/-! ### Compare: the visualization request sequence
(run_benchmark.py lines 156-264) -/

/-- One request issued to the visualization sink. -/
inductive VisEvent where
  | showAccuracy (model protein : String)
  | modelSummary (path : String)
  | ramachandran (path : String)
  | compareAccuracy (path : String)
deriving DecidableEq, Repr

/-- First-match lookup in the `pdb_dict` mapping a model to the PDB
codes to visualize for it. -/
def lookupPdbs (pdbMap : List (String × List String)) (n : String) :
    Option (List String) :=
  match pdbMap with
  | [] => none
  | p :: rest => if p.1 = n then some p.2 else lookupPdbs rest n

/-- The visualization requests one iteration of the per-model loop
(lines 156-207) issues: the per-structure requests for the model's
entries of `pdb_dict`, its summary, and its Ramachandran plot when the
torsions flag is set. -/
def modelEvents (ptm : String) (pdbMap : List (String × List String))
    (torsions : Bool) (e : PoolEntry Mat) : List VisEvent :=
  (match lookupPdbs pdbMap e.name with
   | some prots => prots.map (fun prot => VisEvent.showAccuracy e.name prot)
   | none => []) ++
  [VisEvent.modelSummary (ptm ++ "/" ++ e.name)] ++
  (if torsions then [VisEvent.ramachandran (ptm ++ "/" ++ e.name)] else [])

/-- The `Compare` command past its argument validation and data
loading: the ordered visualization requests it issues and either the
final SelectionSet or the exception that aborts it.  The trace of a
failing run holds the requests issued before the exception.  When a
reference (EvoEF2) directory is supplied, its summary is produced after
the per-model loop, and with the torsions flag its Ramachandran path is
built from the loop variable `model` — the name of the last pool model
iterated — which is unbound (`NameError`) when the pool is empty. -/
def compareModels (ptm : String) (pool : List (PoolEntry Mat))
    (pdbMap : List (String × List String)) (torsions : Bool) (ref : Option Mat)
    (mustInclude : Option (List String)) :
    List VisEvent × Except SelErr (List (String × Mat)) :=
  let perModel := pool.flatMap (modelEvents ptm pdbMap torsions)
  match ref with
  | none =>
    match select pool none mustInclude with
    | .ok sel => (perModel ++ [VisEvent.compareAccuracy ptm], .ok sel)
    | .error err => (perModel, .error err)
  | some r =>
    let t1 := perModel ++ [VisEvent.modelSummary (ptm ++ "/EvoEF2")]
    if torsions then
      match pool.getLast? with
      | none => (t1, .error .nameError)
      | some last =>
        let t2 := t1 ++ [VisEvent.ramachandran (ptm ++ "/" ++ last.name)]
        match select pool (some r) mustInclude with
        | .ok sel => (t2 ++ [VisEvent.compareAccuracy ptm], .ok sel)
        | .error err => (t2, .error err)
    else
      match select pool (some r) mustInclude with
      | .ok sel => (t1 ++ [VisEvent.compareAccuracy ptm], .ok sel)
      | .error err => (t1, .error err)

/-- Relation between a sorted accuracy record and the selection entry the
base selection builds from it. -/
def matchesPool {Mat : Type} (pool : List (PoolEntry Mat)) (pr : ℚ × String)
    (q : String × Mat) : Prop :=
  q.1 = pr.2 ∧ lookupModel pool q.1 = some q.2

/-! ### Scores recovered from the pool, for stating ranking properties -/

/-- First-match lookup of a model's accuracy in the pool. -/
def lookupAcc {Mat : Type} (pool : List (PoolEntry Mat)) (n : String) : Option ℚ :=
  match pool with
  | [] => none
  | e :: rest => if e.name = n then some e.acc else lookupAcc rest n

/-- The accuracy record a selection entry stands for: its pool accuracy
paired with its label. -/
def scoreKey {Mat : Type} (pool : List (PoolEntry Mat)) (q : String × Mat) : ℚ × String :=
  ((lookupAcc pool q.1).getD 0, q.1)

/-! ### Concrete pools used in scenarios and witnesses -/

/-- The nine-model accuracy scenario of the spec:
M1 0.9, M2 0.7, M3 0.95, M4 0.5, M5 0.6, M6 0.8, M7 0.99, M8 0.3,
M9 0.85, with arbitrary distinct matrices. -/
def scenarioPool : List (PoolEntry Nat) :=
  [⟨"M1", mkRat 9 10, 1⟩, ⟨"M2", mkRat 7 10, 2⟩, ⟨"M3", mkRat 19 20, 3⟩,
   ⟨"M4", mkRat 1 2, 4⟩, ⟨"M5", mkRat 3 5, 5⟩, ⟨"M6", mkRat 4 5, 6⟩,
   ⟨"M7", mkRat 99 100, 7⟩, ⟨"M8", mkRat 3 10, 8⟩, ⟨"M9", mkRat 17 20, 9⟩]

/-- The smallest interesting pool: a single model. -/
def onePool : List (PoolEntry Nat) := [⟨"a.csv", mkRat 1 2, 0⟩]

/-! ### Auxiliary lemmas about the embedded operations -/

theorem length_lastN (n : Nat) (l : List α) : (lastN n l).length = min n l.length := by
  simp only [lastN, List.length_drop]
  omega

theorem lastN_sublist (n : Nat) (l : List α) : (lastN n l).Sublist l :=
  List.drop_sublist _ _

theorem pySorted_perm (l : List (ℚ × String)) : (pySorted l).Perm l :=
  List.perm_insertionSort _ _

theorem pySorted_sorted (l : List (ℚ × String)) : (pySorted l).Pairwise pairLe :=
  List.sorted_insertionSort _ _

theorem length_pySorted (l : List (ℚ × String)) : (pySorted l).length = l.length :=
  (pySorted_perm l).length_eq

theorem mem_accuracyList {Mat : Type} {pool : List (PoolEntry Mat)} {p : ℚ × String} :
    p ∈ accuracyList pool ↔ ∃ e ∈ pool, (e.acc, e.name) = p := by
  simp [accuracyList]

theorem lookupModel_mem {Mat : Type} {pool : List (PoolEntry Mat)} {n : String} {m : Mat}
    (h : lookupModel pool n = some m) : ∃ e ∈ pool, e.name = n ∧ e.mat = m := by
  induction pool with
  | nil => simp [lookupModel] at h
  | cons e rest ih =>
    by_cases he : e.name = n
    · simp only [lookupModel, if_pos he, Option.some.injEq] at h
      exact ⟨e, List.mem_cons_self e rest, he, h⟩
    · simp only [lookupModel, if_neg he] at h
      obtain ⟨f, hf, h1, h2⟩ := ih h
      exact ⟨f, List.mem_cons_of_mem _ hf, h1, h2⟩

theorem lookupModel_isSome {Mat : Type} {pool : List (PoolEntry Mat)} {n : String}
    (h : n ∈ pool.map PoolEntry.name) : (lookupModel pool n).isSome = true := by
  induction pool with
  | nil => simp at h
  | cons e rest ih =>
    by_cases he : e.name = n
    · simp [lookupModel, he]
    · simp only [List.map_cons, List.mem_cons] at h
      rcases h with h | h
      · exact absurd h.symm he
      · simpa [lookupModel, he] using ih h

theorem lookupModel_of_nodup {Mat : Type} {pool : List (PoolEntry Mat)}
    (hnd : (pool.map PoolEntry.name).Nodup) {e : PoolEntry Mat} (he : e ∈ pool) :
    lookupModel pool e.name = some e.mat := by
  induction pool with
  | nil => simp at he
  | cons f rest ih =>
    rcases List.mem_cons.mp he with h | h
    · subst h
      simp [lookupModel]
    · have hne : f.name ≠ e.name := by
        intro hfe
        have : e.name ∈ rest.map PoolEntry.name := List.mem_map_of_mem _ h
        exact (List.nodup_cons.mp (by simpa using hnd)).1 (hfe ▸ this)
      simp only [lookupModel, if_neg hne]
      exact ih (List.nodup_cons.mp (by simpa using hnd)).2 h

theorem forall₂_exists_left {α β : Type u} {R : α → β → Prop} :
    ∀ {l₁ : List α} {l₂ : List β}, List.Forall₂ R l₁ l₂ → ∀ b ∈ l₂, ∃ a ∈ l₁, R a b := by
  intro l₁ l₂ h
  induction h with
  | nil => simp
  | cons hab _ ih =>
    intro b hb
    rcases List.mem_cons.mp hb with h | h
    · exact ⟨_, List.mem_cons_self _ _, h ▸ hab⟩
    · obtain ⟨a, ha, har⟩ := ih b h
      exact ⟨a, List.mem_cons_of_mem _ ha, har⟩

theorem forall₂_exists_right {α β : Type u} {R : α → β → Prop} :
    ∀ {l₁ : List α} {l₂ : List β}, List.Forall₂ R l₁ l₂ → ∀ a ∈ l₁, ∃ b ∈ l₂, R a b := by
  intro l₁ l₂ h
  induction h with
  | nil => simp
  | cons hab _ ih =>
    intro a ha
    rcases List.mem_cons.mp ha with h | h
    · exact ⟨_, List.mem_cons_self _ _, h ▸ hab⟩
    · obtain ⟨b, hb, hbr⟩ := ih a h
      exact ⟨b, List.mem_cons_of_mem _ hb, hbr⟩

theorem forall₂_strengthen {α β : Type u} {R S : α → β → Prop} :
    ∀ {l₁ : List α} {l₂ : List β}, List.Forall₂ R l₁ l₂ →
      (∀ a ∈ l₁, ∀ b, R a b → S a b) → List.Forall₂ S l₁ l₂ := by
  intro l₁ l₂ h
  induction h with
  | nil => intro _; exact List.Forall₂.nil
  | cons hab htl ih =>
    intro hstr
    exact List.Forall₂.cons (hstr _ (List.mem_cons_self _ _) _ hab)
      (ih fun a ha b hr => hstr a (List.mem_cons_of_mem _ ha) b hr)

theorem pairwise_of_forall₂ {α β : Type u} {R : α → β → Prop} {S : α → α → Prop}
    {T : β → β → Prop} (hc : ∀ a a' b b', R a b → R a' b' → S a a' → T b b') :
    ∀ {l₁ : List α} {l₂ : List β}, List.Forall₂ R l₁ l₂ → l₁.Pairwise S → l₂.Pairwise T := by
  intro l₁ l₂ h
  induction h with
  | nil => intro _; exact List.Pairwise.nil
  | cons hab htl ih =>
    intro hp
    rcases List.pairwise_cons.mp hp with ⟨hhead, htail⟩
    refine List.Pairwise.cons ?_ (ih htail)
    intro b hb
    obtain ⟨a, ha, har⟩ := forall₂_exists_left htl b hb
    exact hc _ _ _ _ hab har (hhead a ha)

theorem forall₂_matches_fst {Mat : Type} {pool : List (PoolEntry Mat)} :
    ∀ {prs : List (ℚ × String)} {sel : List (String × Mat)},
      List.Forall₂ (matchesPool pool) prs sel →
      sel.map Prod.fst = prs.map Prod.snd := by
  intro prs sel h
  induction h with
  | nil => rfl
  | cons hab _ ih => simp [hab.1, ih]

theorem nodup_set_of_not_mem {α : Type u} :
    ∀ (l : List α) (i : Nat) (a : α), a ∉ l → l.Nodup → (l.set i a).Nodup := by
  intro l
  induction l with
  | nil => simp
  | cons x xs ih =>
    intro i a ha hnd
    cases i with
    | zero =>
      refine List.nodup_cons.mpr ⟨?_, (List.nodup_cons.mp hnd).2⟩
      exact fun hmem => ha (List.mem_cons_of_mem _ hmem)
    | succ j =>
      refine List.nodup_cons.mpr ⟨?_, ?_⟩
      · intro hx
        rcases List.mem_or_eq_of_mem_set hx with h | h
        · exact (List.nodup_cons.mp hnd).1 h
        · exact ha (h ▸ List.mem_cons_self x xs)
      · exact ih j a (fun h => ha (List.mem_cons_of_mem _ h)) (List.nodup_cons.mp hnd).2

theorem resolveNames_ok {Mat : Type} {pool : List (PoolEntry Mat)} :
    ∀ (prs : List (ℚ × String)), (∀ p ∈ prs, p.2 ∈ pool.map PoolEntry.name) →
      ∃ b, resolveNames pool prs = Except.ok b ∧
        List.Forall₂ (matchesPool pool) prs b := by
  intro prs
  induction prs with
  | nil =>
    intro _
    exact ⟨[], rfl, List.Forall₂.nil⟩
  | cons p rest ih =>
    intro hmem
    have hp := lookupModel_isSome (hmem p (List.mem_cons_self p rest))
    obtain ⟨m, hm⟩ := Option.isSome_iff_exists.mp hp
    obtain ⟨b, hb, hrel⟩ := ih fun q hq => hmem q (List.mem_cons_of_mem _ hq)
    refine ⟨(p.2, m) :: b, ?_, List.Forall₂.cons ⟨rfl, hm⟩ hrel⟩
    simp [resolveNames, hm, hb]

theorem mem_ranked_name {Mat : Type} {pool : List (PoolEntry Mat)} {n : Nat} {p : ℚ × String}
    (h : p ∈ lastN n (pySorted (accuracyList pool))) : p.2 ∈ pool.map PoolEntry.name := by
  have h1 : p ∈ accuracyList pool :=
    ((pySorted_perm (accuracyList pool)).mem_iff).mp ((lastN_sublist _ _).subset h)
  obtain ⟨e, he, hpe⟩ := mem_accuracyList.mp h1
  exact hpe ▸ List.mem_map_of_mem _ he

theorem baseSelection_none_ok {Mat : Type} (pool : List (PoolEntry Mat)) :
    ∃ b, baseSelection pool none = Except.ok b ∧
      List.Forall₂ (matchesPool pool) (lastN 8 (pySorted (accuracyList pool))) b := by
  obtain ⟨b, hb, hrel⟩ :=
    @resolveNames_ok Mat pool (lastN 8 (pySorted (accuracyList pool)))
      (fun p hp => mem_ranked_name hp)
  exact ⟨b, by simpa [baseSelection] using hb, hrel⟩

theorem baseSelection_some_ok {Mat : Type} (pool : List (PoolEntry Mat)) (r : Mat) :
    ∃ front, baseSelection pool (some r) = Except.ok (front ++ [("EvoEF2", r)]) ∧
      List.Forall₂ (matchesPool pool) (lastN 7 (pySorted (accuracyList pool))) front := by
  obtain ⟨b, hb, hrel⟩ :=
    @resolveNames_ok Mat pool (lastN 7 (pySorted (accuracyList pool)))
      (fun p hp => mem_ranked_name hp)
  refine ⟨b, ?_, hrel⟩
  simp only [baseSelection]
  rw [hb]

theorem select_none_eq {Mat : Type} (pool : List (PoolEntry Mat)) (ref : Option Mat) :
    select pool ref none = baseSelection pool ref := by
  unfold select
  cases h : baseSelection pool ref <;> simp [h, Except.bind]

theorem select_some_eq {Mat : Type} (pool : List (PoolEntry Mat)) (ref : Option Mat)
    (names : List String) {base : List (String × Mat)}
    (hb : baseSelection pool ref = Except.ok base) :
    select pool ref (some names) =
      if names.length ≤ 8 then mustMerge pool names base 0
      else Except.error SelErr.valueError := by
  unfold select
  rw [hb]
  rfl

theorem mustMerge_ok_length {Mat : Type} {pool : List (PoolEntry Mat)} :
    ∀ (names : List String) (sel : List (String × Mat)) (i : Nat)
      (sel2 : List (String × Mat)),
      mustMerge pool names sel i = Except.ok sel2 → sel2.length = sel.length := by
  intro names
  induction names with
  | nil =>
    intro sel i sel2 h
    simp only [mustMerge, Except.ok.injEq] at h
    rw [h]
  | cons n rest ih =>
    intro sel i sel2 h
    by_cases hmem : n ∈ sel.map Prod.fst
    · rw [show mustMerge pool (n :: rest) sel i = mustMerge pool rest sel (i + 1) by
        simp [mustMerge, hmem]] at h
      exact ih _ _ _ h
    · cases hl : lookupModel pool n with
      | none => simp [mustMerge, hmem, hl] at h
      | some m =>
        by_cases hi : i < sel.length
        · rw [show mustMerge pool (n :: rest) sel i =
              mustMerge pool rest (sel.set i (n, m)) (i + 1) by
            simp [mustMerge, hmem, hl, hi]] at h
          rw [ih _ _ _ h, List.length_set]
        · simp [mustMerge, hmem, hl, hi] at h

theorem mustMerge_ok_nodup {Mat : Type} {pool : List (PoolEntry Mat)} :
    ∀ (names : List String) (sel : List (String × Mat)) (i : Nat)
      (sel2 : List (String × Mat)),
      mustMerge pool names sel i = Except.ok sel2 →
      (sel.map Prod.fst).Nodup → (sel2.map Prod.fst).Nodup := by
  intro names
  induction names with
  | nil =>
    intro sel i sel2 h hnd
    simp only [mustMerge, Except.ok.injEq] at h
    rw [h] at hnd
    exact hnd
  | cons n rest ih =>
    intro sel i sel2 h hnd
    by_cases hmem : n ∈ sel.map Prod.fst
    · rw [show mustMerge pool (n :: rest) sel i = mustMerge pool rest sel (i + 1) by
        simp [mustMerge, hmem]] at h
      exact ih _ _ _ h hnd
    · cases hl : lookupModel pool n with
      | none => simp [mustMerge, hmem, hl] at h
      | some m =>
        by_cases hi : i < sel.length
        · rw [show mustMerge pool (n :: rest) sel i =
              mustMerge pool rest (sel.set i (n, m)) (i + 1) by
            simp [mustMerge, hmem, hl, hi]] at h
          refine ih _ _ _ h ?_
          rw [List.map_set]
          exact nodup_set_of_not_mem _ _ _ hmem hnd
        · simp [mustMerge, hmem, hl, hi] at h

theorem mustMerge_ok_of {Mat : Type} {pool : List (PoolEntry Mat)} :
    ∀ (names : List String) (sel : List (String × Mat)) (i : Nat),
      (∀ n ∈ names, n ∈ pool.map PoolEntry.name) →
      i + names.length ≤ sel.length →
      ∃ sel2, mustMerge pool names sel i = Except.ok sel2 := by
  intro names
  induction names with
  | nil => intro sel i _ _; exact ⟨sel, rfl⟩
  | cons n rest ih =>
    intro sel i hmem hlen
    by_cases hin : n ∈ sel.map Prod.fst
    · obtain ⟨sel2, h2⟩ := ih sel (i + 1)
        (fun q hq => hmem q (List.mem_cons_of_mem _ hq)) (by simp at hlen; omega)
      exact ⟨sel2, by simpa [mustMerge, hin] using h2⟩
    · have hs := lookupModel_isSome (hmem n (List.mem_cons_self n rest))
      obtain ⟨m, hm⟩ := Option.isSome_iff_exists.mp hs
      have hi : i < sel.length := by simp at hlen; omega
      obtain ⟨sel2, h2⟩ := ih (sel.set i (n, m)) (i + 1)
        (fun q hq => hmem q (List.mem_cons_of_mem _ hq))
        (by rw [List.length_set]; simp at hlen; omega)
      exact ⟨sel2, by simpa [mustMerge, hin, hm, hi] using h2⟩

theorem normalizeChains_length :
    ∀ {lines cs : List String}, normalizeChains lines = some cs →
      cs.length = lines.length := by
  intro lines
  induction lines with
  | nil =>
    intro cs h
    simp only [normalizeChains, Option.some.injEq] at h
    rw [← h]
  | cons l rest ih =>
    intro cs h
    cases ht : lineToken l with
    | none => simp [normalizeChains, ht] at h
    | some t =>
      cases hr : normalizeChains rest with
      | none => simp [normalizeChains, ht, hr] at h
      | some ts =>
        simp only [normalizeChains, ht, hr, Option.some.injEq] at h
        rw [← h]
        simp [ih hr]

/-! ### Claim C6: algebra of the overlap resolver -/

/-- C6: for all ChainSets A (training) and B (testing), the overlap is
the sublist of B whose entries are members of A (order and duplicates
of B preserved), and the clean set is B minus the overlap: it is
disjoint from A, and together with the overlap it reconstructs B as a
set. -/
theorem c6_overlap_resolution (A B : List String) :
    (repeatedChains A B).Sublist B ∧
    (∀ x, x ∈ repeatedChains A B ↔ x ∈ B ∧ x ∈ A) ∧
    (∀ x, x ∈ cleanChains A B ↔ x ∈ B ∧ x ∉ repeatedChains A B) ∧
    (∀ x ∈ cleanChains A B, x ∉ A) ∧
    (∀ x ∈ B, x ∈ cleanChains A B ∨ x ∈ repeatedChains A B) := by
  refine ⟨List.filter_sublist _, ?_, ?_, ?_, ?_⟩
  · intro x
    simp [repeatedChains, List.mem_filter]
  · intro x
    simp [cleanChains, List.mem_filter]
  · intro x hx
    rcases (by simpa [cleanChains, List.mem_filter] using hx :
      x ∈ B ∧ x ∉ repeatedChains A B) with ⟨hxB, hxno⟩
    intro hxA
    exact hxno (by simp [repeatedChains, List.mem_filter, hxB, hxA])
  · intro x hxB
    by_cases hxr : x ∈ repeatedChains A B
    · exact Or.inr hxr
    · exact Or.inl (by simp [cleanChains, List.mem_filter, hxB, hxr])

/-- C6 witness: a concrete instance of the disjointness conjunct. -/
theorem c6_witness : "4QWEC" ∉ (["1A2BA", "3XYZB"] : List String) :=
  (c6_overlap_resolution ["1A2BA", "3XYZB"] ["1A2BA", "4QWEC"]).2.2.2.1 "4QWEC" (by decide)

/-! ### Claim C8: header detection of the chain-list normalizer -/

/-- C8 counterexample: the dataset file read by Check_set is never
header-normalized — a header-shaped first record (token length not 5)
is kept, so zero lines are dropped, contrary to the claim that every
chain-list file read by the command drops its first line in that
case. -/
theorem c8_counterexample :
    loadTestingChains ["HEADER X", "1A2BA"] = some ["HEADER", "1A2BA"] ∧
    "HEADER".length ≠ 5 := by decide

/-- C8 amended: only the training-set file undergoes header detection:
normalizing a header-prefixed training list (first token length not 5)
drops exactly the first record and keeps all others unmodified, a
header-less training list drops zero records, and the dataset list
always drops zero records. -/
theorem c8_header_normalization :
    (∀ (lines : List String) (c : String) (cs : List String),
        normalizeChains lines = some (c :: cs) → c.length ≠ 5 →
        loadTrainingChains lines = some cs) ∧
    (∀ (lines : List String) (c : String) (cs : List String),
        normalizeChains lines = some (c :: cs) → c.length = 5 →
        loadTrainingChains lines = some (c :: cs)) ∧
    (∀ (lines cs : List String),
        loadTestingChains lines = some cs → cs.length = lines.length) := by
  refine ⟨?_, ?_, ?_⟩
  · intro lines c cs h hc
    simp [loadTrainingChains, h, hc]
  · intro lines c cs h hc
    simp [loadTrainingChains, h, hc]
  · intro lines cs h
    exact normalizeChains_length h

/-- C8 witness: the header-prefixed and header-less training cases and
the dataset case at concrete inputs. -/
theorem c8_witness :
    loadTrainingChains ["HEADER X", "1A2BA"] = some ["1A2BA"] ∧
    loadTrainingChains ["3xyzB", "1A2BA"] = some ["3XYZB", "1A2BA"] ∧
    (["HEADER", "1A2BA"] : List String).length = (["HEADER X", "1A2BA"] : List String).length :=
  ⟨c8_header_normalization.1 ["HEADER X", "1A2BA"] "HEADER" ["1A2BA"] (by decide) (by decide),
   c8_header_normalization.2.1 ["3xyzB", "1A2BA"] "3XYZB" ["1A2BA"] (by decide) (by decide),
   c8_header_normalization.2.2 ["HEADER X", "1A2BA"] ["HEADER", "1A2BA"] (by decide)⟩

/-! ### Claim C9: uppercase normalization scenario -/

/-- C9: chain identifiers are uppercase-normalized before membership
comparison: for training `["1A2BA","3XYZB"]` and testing
`["1a2bA","4QWEc"]` the command reports overlap `["1A2BA"]` and clean
set `["4QWEC"]`. -/
theorem c9_uppercase_scenario :
    checkSet ["1A2BA", "3XYZB"] ["1a2bA", "4QWEc"] = some (["1A2BA"], ["4QWEC"]) := by
  decide

theorem lookupAcc_of_nodup {Mat : Type} {pool : List (PoolEntry Mat)}
    (hnd : (pool.map PoolEntry.name).Nodup) {e : PoolEntry Mat} (he : e ∈ pool) :
    lookupAcc pool e.name = some e.acc := by
  induction pool with
  | nil => simp at he
  | cons f rest ih =>
    rcases List.mem_cons.mp he with h | h
    · subst h
      simp [lookupAcc]
    · have hne : f.name ≠ e.name := by
        intro hfe
        have : e.name ∈ rest.map PoolEntry.name := List.mem_map_of_mem _ h
        exact (List.nodup_cons.mp (by simpa using hnd)).1 (hfe ▸ this)
      simp only [lookupAcc, if_neg hne]
      exact ih (List.nodup_cons.mp (by simpa using hnd)).2 h

theorem scoreKey_matches {Mat : Type} {pool : List (PoolEntry Mat)}
    (hnd : (pool.map PoolEntry.name).Nodup) {pr : ℚ × String} {q : String × Mat}
    (hpr : pr ∈ accuracyList pool) (hq : matchesPool pool pr q) :
    scoreKey pool q = pr := by
  obtain ⟨e, he, hpe⟩ := mem_accuracyList.mp hpr
  obtain ⟨h1, _⟩ := hq
  have hn : q.1 = e.name := by rw [h1, ← hpe]
  have : scoreKey pool q = (e.acc, e.name) := by
    simp [scoreKey, hn, lookupAcc_of_nodup hnd he]
  rw [this, hpe]

theorem accuracyList_names {Mat : Type} (pool : List (PoolEntry Mat)) :
    (accuracyList pool).map Prod.snd = pool.map PoolEntry.name := by
  simp [accuracyList]

theorem ranked_names_nodup {Mat : Type} {pool : List (PoolEntry Mat)}
    (hnd : (pool.map PoolEntry.name).Nodup) (n : Nat) :
    ((lastN n (pySorted (accuracyList pool))).map Prod.snd).Nodup := by
  have hperm : ((pySorted (accuracyList pool)).map Prod.snd).Perm (pool.map PoolEntry.name) := by
    have h1 := (pySorted_perm (accuracyList pool)).map Prod.snd
    rwa [accuracyList_names] at h1
  have hnd2 : ((pySorted (accuracyList pool)).map Prod.snd).Nodup :=
    hperm.nodup_iff.mpr hnd
  exact ((lastN_sublist n _).map Prod.snd).nodup hnd2

theorem mustMerge_eq_foldl {Mat : Type} {pool : List (PoolEntry Mat)} :
    ∀ (names : List String) (sel : List (String × Mat)) (i : Nat),
      (∀ n ∈ names, n ∈ pool.map PoolEntry.name) →
      i + names.length ≤ sel.length →
      mustMerge pool names sel i =
        Except.ok ((names.enumFrom i).foldl (fun cur p =>
          if p.2 ∈ cur.map Prod.fst then cur
          else
            match lookupModel pool p.2 with
            | some m => cur.set p.1 (p.2, m)
            | none => cur) sel) := by
  intro names
  induction names with
  | nil => intro sel i _ _; rfl
  | cons n rest ih =>
    intro sel i hmem hlen
    by_cases hin : n ∈ sel.map Prod.fst
    · have h2 := ih sel (i + 1)
        (fun q hq => hmem q (List.mem_cons_of_mem _ hq)) (by simp at hlen; omega)
      simpa [mustMerge, List.enumFrom, hin] using h2
    · have hs := lookupModel_isSome (hmem n (List.mem_cons_self n rest))
      obtain ⟨m, hm⟩ := Option.isSome_iff_exists.mp hs
      have hi : i < sel.length := by simp at hlen; omega
      have h2 := ih (sel.set i (n, m)) (i + 1)
        (fun q hq => hmem q (List.mem_cons_of_mem _ hq))
        (by rw [List.length_set]; simp at hlen; omega)
      simpa [mustMerge, List.enumFrom, hin, hm, hi] using h2

/-! ### Claim C2: ranking without reference or must-include list -/

/-- C2 counterexample: on the scenario pool the selection is not the
claimed descending list `[M7, M3, M9, M1, M6, M2, M5, M4]` — the code
keeps the tail of the ascending sort in ascending order. -/
theorem c2_counterexample :
    select scenarioPool none none ≠
      Except.ok [("M7", 7), ("M3", 3), ("M9", 9), ("M1", 1),
                 ("M6", 6), ("M2", 2), ("M5", 5), ("M4", 4)] := by decide

/-- C2 amended: with no reference and no must-include list and a pool
of size at least 8 (with distinct model names), the selection has
exactly 8 entries, is sorted ASCENDING by accuracy (ties broken by
name), equals the pool's top 8 by accuracy, and pairs every label with
its pool matrix; on the scenario pool the selection is
`[M4, M5, M2, M6, M9, M1, M3, M7]` in ascending order. -/
theorem c2_top8_ascending :
    (∀ {Mat : Type} (pool : List (PoolEntry Mat)),
        (pool.map PoolEntry.name).Nodup → 8 ≤ pool.length →
        ∃ sel, select pool none none = Except.ok sel ∧ sel.length = 8 ∧
          sel.Pairwise (fun p q => pairLe (scoreKey pool p) (scoreKey pool q)) ∧
          (∀ e ∈ pool, e.name ∉ sel.map Prod.fst →
            ∀ q ∈ sel, pairLe (e.acc, e.name) (scoreKey pool q)) ∧
          (∀ q ∈ sel, ∃ e ∈ pool, e.name = q.1 ∧ e.mat = q.2)) ∧
    select scenarioPool none none =
      Except.ok [("M4", 4), ("M5", 5), ("M2", 2), ("M6", 6),
                 ("M9", 9), ("M1", 1), ("M3", 3), ("M7", 7)] := by
  constructor
  · intro Mat pool hnd hlen
    obtain ⟨sel, hbase, hrel⟩ := baseSelection_none_ok pool
    have hmemacc : ∀ pr ∈ lastN 8 (pySorted (accuracyList pool)), pr ∈ accuracyList pool :=
      fun pr hpr => (pySorted_perm _).mem_iff.mp ((lastN_sublist _ _).subset hpr)
    have hS : List.Forall₂ (fun (pr : ℚ × String) (q : String × Mat) => scoreKey pool q = pr)
        (lastN 8 (pySorted (accuracyList pool))) sel :=
      forall₂_strengthen hrel
        (fun pr hpr q hq => scoreKey_matches hnd (hmemacc pr hpr) hq)
    refine ⟨sel, (select_none_eq pool none).trans hbase, ?_, ?_, ?_, ?_⟩
    · have h1 : (lastN 8 (pySorted (accuracyList pool))).length = min 8 pool.length := by
        rw [length_lastN, length_pySorted]
        simp [accuracyList]
      have h2 := hrel.length_eq
      omega
    · refine pairwise_of_forall₂ ?_ hS
        (List.Pairwise.sublist (lastN_sublist _ _) (pySorted_sorted _))
      intro a a' b b' hab hab' hs
      rw [hab, hab']
      exact hs
    · intro e he hnotin q hq
      have hepair : (e.acc, e.name) ∈ pySorted (accuracyList pool) :=
        (pySorted_perm _).mem_iff.mpr (mem_accuracyList.mpr ⟨e, he, rfl⟩)
      have hsplit := List.take_append_drop
        ((pySorted (accuracyList pool)).length - 8) (pySorted (accuracyList pool))
      rcases List.mem_append.mp (by rw [hsplit]; exact hepair :
          (e.acc, e.name) ∈
            List.take ((pySorted (accuracyList pool)).length - 8)
                (pySorted (accuracyList pool)) ++
              List.drop ((pySorted (accuracyList pool)).length - 8)
                (pySorted (accuracyList pool))) with htake | hdrop
      · have hsorted := pySorted_sorted (accuracyList pool)
        rw [← hsplit] at hsorted
        obtain ⟨_, _, hcross⟩ := List.pairwise_append.mp hsorted
        obtain ⟨pr, hpr, hkey⟩ := forall₂_exists_left hS q hq
        rw [hkey]
        exact hcross _ htake pr hpr
      · obtain ⟨q2, hq2, hm2⟩ := forall₂_exists_right hrel _ hdrop
        have hq21 : q2.1 = e.name := hm2.1
        exact absurd (by rw [← hq21]; exact List.mem_map_of_mem Prod.fst hq2) hnotin
    · intro q hq
      obtain ⟨pr, _, _, h2⟩ := forall₂_exists_left hrel q hq
      obtain ⟨e, he, h3, h4⟩ := lookupModel_mem h2
      exact ⟨e, he, h3, h4⟩
  · decide

/-- C2 witness: the general part of the amended claim applied to the
scenario pool. -/
theorem c2_witness :
    ∃ sel, select scenarioPool none none = Except.ok sel ∧ sel.length = 8 ∧
      sel.Pairwise (fun p q => pairLe (scoreKey scenarioPool p) (scoreKey scenarioPool q)) ∧
      (∀ e ∈ scenarioPool, e.name ∉ sel.map Prod.fst →
        ∀ q ∈ sel, pairLe (e.acc, e.name) (scoreKey scenarioPool q)) ∧
      (∀ q ∈ sel, ∃ e ∈ scenarioPool, e.name = q.1 ∧ e.mat = q.2) :=
  c2_top8_ascending.1 scenarioPool (by decide) (by decide)

theorem string_append_right_inj (s : String) {a b : String} (h : a ≠ b) :
    s ++ a ≠ s ++ b := by
  intro he
  apply h
  have hd : (s ++ a).data = (s ++ b).data := by rw [he]
  rw [String.data_append, String.data_append] at hd
  have h2 := List.append_cancel_left hd
  cases a
  cases b
  exact congrArg String.mk h2

theorem length_ranked {Mat : Type} (pool : List (PoolEntry Mat)) (n : Nat) :
    (lastN n (pySorted (accuracyList pool))).length = min n pool.length := by
  rw [length_lastN, length_pySorted]
  simp [accuracyList]

theorem front_names_sub {Mat : Type} {pool : List (PoolEntry Mat)} {n : Nat}
    {front : List (String × Mat)}
    (hrel : List.Forall₂ (matchesPool pool) (lastN n (pySorted (accuracyList pool))) front) :
    ∀ q ∈ front, q.1 ∈ pool.map PoolEntry.name := by
  intro q hq
  obtain ⟨pr, hpr, h1, _⟩ := forall₂_exists_left hrel q hq
  rw [h1]
  exact mem_ranked_name hpr

/-- Shape of the base selection under unique pool names. -/
theorem baseSelection_shape {Mat : Type} (pool : List (PoolEntry Mat)) (ref : Option Mat)
    (hnd : (pool.map PoolEntry.name).Nodup) (hevo : "EvoEF2" ∉ pool.map PoolEntry.name) :
    ∃ base, baseSelection pool ref = Except.ok base ∧
      base.length = (if ref.isSome then min 7 pool.length + 1 else min 8 pool.length) ∧
      (base.map Prod.fst).Nodup := by
  cases ref with
  | none =>
    obtain ⟨base, hb, hrel⟩ := baseSelection_none_ok pool
    refine ⟨base, hb, ?_, ?_⟩
    · have h1 := hrel.length_eq
      rw [length_ranked] at h1
      simp [← h1]
    · rw [forall₂_matches_fst hrel]
      exact ranked_names_nodup hnd 8
  | some r =>
    obtain ⟨front, hb, hrel⟩ := baseSelection_some_ok pool r
    refine ⟨front ++ [("EvoEF2", r)], hb, ?_, ?_⟩
    · have h1 := hrel.length_eq
      rw [length_ranked] at h1
      simp [← h1]
    · rw [List.map_append]
      refine List.nodup_append.mpr ⟨?_, by simp, ?_⟩
      · rw [forall₂_matches_fst hrel]
        exact ranked_names_nodup hnd 7
      · intro a ha hb2
        have ha2 : a = "EvoEF2" := by simpa using hb2
        obtain ⟨q, hq, hq1⟩ := List.mem_map.mp ha
        have := front_names_sub hrel q hq
        rw [hq1, ha2] at this
        exact hevo this

/-- An include list longer than 8 always yields the `ValueError`. -/
theorem select_too_many {Mat : Type} (pool : List (PoolEntry Mat)) (ref : Option Mat)
    (names : List String) (h : 8 < names.length) :
    select pool ref (some names) = Except.error SelErr.valueError := by
  cases ref with
  | none =>
    obtain ⟨b, hb, _⟩ := baseSelection_none_ok pool
    rw [select_some_eq pool none names hb, if_neg (by omega)]
  | some r =>
    obtain ⟨f, hb, _⟩ := baseSelection_some_ok pool r
    rw [select_some_eq pool (some r) names hb, if_neg (by omega)]

/-! ### Claim C3: selection size and uniqueness invariant -/

/-- C3 counterexample: a pool of one model and no reference completes
without the configuration error, yet the selection has 1 entry, not
the claimed cap of 8. -/
theorem c3_counterexample :
    select onePool none none = Except.ok [("a.csv", 0)] ∧
    ¬ ([("a.csv", (0 : Nat))].length = 8) := by decide

/-- C3 amended: for every call to select that completes without an
error (and a pool with unique names not containing the reserved
reference label), the selection size is `min cap (pool size)` plus one
for the reference — the claimed `cap + referenceBonus` only when the
pool has at least `cap` models — and it is at most 8 with no duplicate
model name. -/
theorem c3_selection_size_nodup {Mat : Type} (pool : List (PoolEntry Mat))
    (ref : Option Mat) (mustInclude : Option (List String)) (sel : List (String × Mat))
    (hnd : (pool.map PoolEntry.name).Nodup)
    (hevo : "EvoEF2" ∉ pool.map PoolEntry.name)
    (hsel : select pool ref mustInclude = Except.ok sel) :
    sel.length = (if ref.isSome then min 7 pool.length + 1 else min 8 pool.length) ∧
    sel.length ≤ 8 ∧ (sel.map Prod.fst).Nodup := by
  obtain ⟨base, hb, hblen, hbnd⟩ := baseSelection_shape pool ref hnd hevo
  cases mustInclude with
  | none =>
    rw [select_none_eq, hb, Except.ok.injEq] at hsel
    subst hsel
    refine ⟨hblen, ?_, hbnd⟩
    rw [hblen]
    cases ref <;> simp
  | some names =>
    rw [select_some_eq pool ref names hb] at hsel
    by_cases h8 : names.length ≤ 8
    · rw [if_pos h8] at hsel
      have hlen := mustMerge_ok_length names base 0 sel hsel
      have hnd2 := mustMerge_ok_nodup names base 0 sel hsel hbnd
      refine ⟨hlen.trans hblen, ?_, hnd2⟩
      rw [hlen, hblen]
      cases ref <;> simp
    · rw [if_neg h8] at hsel
      exact absurd hsel (by simp)

/-- C3 witness: the amended size law on a concrete one-model pool with
a reference. -/
theorem c3_witness :
    ([("a.csv", (0 : Nat)), ("EvoEF2", 7)] : List (String × Nat)).length =
        (if (some 7 : Option Nat).isSome then min 7 onePool.length + 1
         else min 8 onePool.length) ∧
    ([("a.csv", (0 : Nat)), ("EvoEF2", 7)] : List (String × Nat)).length ≤ 8 ∧
    (([("a.csv", (0 : Nat)), ("EvoEF2", 7)] : List (String × Nat)).map Prod.fst).Nodup :=
  c3_selection_size_nodup onePool (some 7) none [("a.csv", 0), ("EvoEF2", 7)]
    (by decide) (by decide) (by decide)

/-! ### Claim C4: unconditional reference appending -/

/-- C4 counterexample: with a reference and a pool of one model the
selection has 2 entries, not the claimed 8. -/
theorem c4_counterexample :
    select onePool (some 99) none = Except.ok [("a.csv", 0), ("EvoEF2", 99)] ∧
    ¬ ([("a.csv", (0 : Nat)), ("EvoEF2", 99)].length = 8) := by decide

/-- C4 amended: with a reference and no must-include list, the
reference is always appended verbatim as the final entry after a
ranked front drawn from the pool of length `min 7 (pool size)`; the
selection has exactly 8 entries when the pool has at least 7 models. -/
theorem c4_reference_appended :
    (∀ {Mat : Type} (pool : List (PoolEntry Mat)) (r : Mat),
        ∃ front, select pool (some r) none = Except.ok (front ++ [("EvoEF2", r)]) ∧
          front.length = min 7 pool.length ∧
          ∀ q ∈ front, q.1 ∈ pool.map PoolEntry.name) ∧
    (∀ {Mat : Type} (pool : List (PoolEntry Mat)) (r : Mat) (sel : List (String × Mat)),
        7 ≤ pool.length → select pool (some r) none = Except.ok sel →
        sel.length = 8 ∧ sel.getLast? = some ("EvoEF2", r)) := by
  constructor
  · intro Mat pool r
    obtain ⟨front, hb, hrel⟩ := baseSelection_some_ok pool r
    refine ⟨front, (select_none_eq pool (some r)).trans hb, ?_, front_names_sub hrel⟩
    have h1 := hrel.length_eq
    rw [length_ranked] at h1
    omega
  · intro Mat pool r sel h7 hsel
    obtain ⟨front, hb, hrel⟩ := baseSelection_some_ok pool r
    rw [select_none_eq, hb, Except.ok.injEq] at hsel
    subst hsel
    have h1 := hrel.length_eq
    rw [length_ranked] at h1
    constructor
    · simp [← h1]
      omega
    · exact List.getLast?_concat front

/-- C4 witness: on the nine-model scenario pool with reference matrix
42 the selection has 8 entries and ends with the reference. -/
theorem c4_witness :
    ([("M5", 5), ("M2", 2), ("M6", 6), ("M9", 9), ("M1", 1), ("M3", 3), ("M7", 7),
      ("EvoEF2", 42)] : List (String × Nat)).length = 8 ∧
    ([("M5", 5), ("M2", 2), ("M6", 6), ("M9", 9), ("M1", 1), ("M3", 3), ("M7", 7),
      ("EvoEF2", 42)] : List (String × Nat)).getLast? = some ("EvoEF2", 42) :=
  c4_reference_appended.2 scenarioPool 42
    [("M5", 5), ("M2", 2), ("M6", 6), ("M9", 9), ("M1", 1), ("M3", 3), ("M7", 7),
     ("EvoEF2", 42)] (by decide) (by decide)

/-! ### Claim C5: positional must-include overwrite -/

/-- C5: for a must-include list of length at most 8 whose names are in
the pool and which fits the current selection, select implements
exactly the spec's positional-overwrite policy: the name at index i of
the list replaces position i of the selection with `(name, pool[name])`
precisely when it is not already present, names already present leaving
their index unchanged. -/
theorem c5_positional_overwrite {Mat : Type} (pool : List (PoolEntry Mat))
    (ref : Option Mat) (names : List String) (base : List (String × Mat))
    (h8 : names.length ≤ 8)
    (hin : ∀ n ∈ names, n ∈ pool.map PoolEntry.name)
    (hbase : select pool ref none = Except.ok base)
    (hlen : names.length ≤ base.length) :
    select pool ref (some names) = Except.ok (specMustIncludeMerge pool names base) := by
  have hb : baseSelection pool ref = Except.ok base := by
    rw [← select_none_eq]
    exact hbase
  rw [select_some_eq pool ref names hb, if_pos h8,
    mustMerge_eq_foldl names base 0 hin (by omega)]
  simp [specMustIncludeMerge, List.enum_eq_enumFrom]

/-- C5 witness: on the scenario pool, must-include `["M8", "M1"]`
overwrites position 0 with M8 (absent from the top 8) and leaves
position 1 alone because M1 is already selected. -/
theorem c5_witness :
    select scenarioPool none (some ["M8", "M1"]) =
      Except.ok (specMustIncludeMerge scenarioPool ["M8", "M1"]
        [("M4", 4), ("M5", 5), ("M2", 2), ("M6", 6),
         ("M9", 9), ("M1", 1), ("M3", 3), ("M7", 7)]) :=
  c5_positional_overwrite scenarioPool none ["M8", "M1"]
    [("M4", 4), ("M5", 5), ("M2", 2), ("M6", 6), ("M9", 9), ("M1", 1), ("M3", 3), ("M7", 7)]
    (by decide) (by decide) (by decide) (by decide)

/-! ### Claim C7: error surface of the selector -/

theorem lastN_all {α : Type u} {n : Nat} {l : List α} (h : l.length ≤ n) : lastN n l = l := by
  simp [lastN, Nat.sub_eq_zero_of_le h]

/-- The invariant that makes the index store of the must-include pass
safe: either every pool name is already a label of the selection (pool
at most the cap, so nothing is ever stored), or the selection has
exactly 8 entries (pool past the cap, so every store index fits). -/
theorem baseSelection_invariant {Mat : Type} (pool : List (PoolEntry Mat)) (ref : Option Mat)
    {base : List (String × Mat)} (hb : baseSelection pool ref = Except.ok base) :
    (∀ e ∈ pool, e.name ∈ base.map Prod.fst) ∨ base.length = 8 := by
  have hperm : ((pySorted (accuracyList pool)).map Prod.snd).Perm (pool.map PoolEntry.name) := by
    have h1 := (pySorted_perm (accuracyList pool)).map Prod.snd
    rwa [accuracyList_names] at h1
  cases ref with
  | none =>
    obtain ⟨b, hb2, hrel⟩ := baseSelection_none_ok pool
    rw [hb2, Except.ok.injEq] at hb
    subst hb
    by_cases h8 : 8 ≤ pool.length
    · right
      have h1 := hrel.length_eq
      rw [length_ranked] at h1
      omega
    · left
      intro e he
      have hall : lastN 8 (pySorted (accuracyList pool)) = pySorted (accuracyList pool) :=
        lastN_all (by rw [length_pySorted]; simp [accuracyList]; omega)
      rw [forall₂_matches_fst hrel, hall]
      exact hperm.mem_iff.mpr (List.mem_map_of_mem _ he)
  | some r =>
    obtain ⟨front, hb2, hrel⟩ := baseSelection_some_ok pool r
    rw [hb2, Except.ok.injEq] at hb
    subst hb
    by_cases h7 : 7 ≤ pool.length
    · right
      have h1 := hrel.length_eq
      rw [length_ranked] at h1
      simp [← h1]
      omega
    · left
      intro e he
      have hall : lastN 7 (pySorted (accuracyList pool)) = pySorted (accuracyList pool) :=
        lastN_all (by rw [length_pySorted]; simp [accuracyList]; omega)
      rw [List.map_append, List.mem_append]
      left
      rw [forall₂_matches_fst hrel, hall]
      exact hperm.mem_iff.mpr (List.mem_map_of_mem _ he)

/-- Under the invariant and the already-passed cap check, the only
error the must-include pass can produce is the `KeyError`: a store
only happens for a pool name absent from the labels, which by the
invariant means the selection has 8 entries while every store index is
at most 7. -/
theorem mustMerge_error_keyError {Mat : Type} {pool : List (PoolEntry Mat)} :
    ∀ (names : List String) (sel : List (String × Mat)) (i : Nat) (err : SelErr),
      i + names.length ≤ 8 →
      ((∀ e ∈ pool, e.name ∈ sel.map Prod.fst) ∨ sel.length = 8) →
      mustMerge pool names sel i = Except.error err → err = SelErr.keyError := by
  intro names
  induction names with
  | nil =>
    intro sel i err _ _ h
    simp [mustMerge] at h
  | cons n rest ih =>
    intro sel i err hbound hinv h
    by_cases hmem : n ∈ sel.map Prod.fst
    · rw [show mustMerge pool (n :: rest) sel i = mustMerge pool rest sel (i + 1) by
        simp [mustMerge, hmem]] at h
      exact ih _ _ _ (by simp at hbound; omega) hinv h
    · cases hl : lookupModel pool n with
      | none =>
        rw [show mustMerge pool (n :: rest) sel i = Except.error SelErr.keyError by
          simp [mustMerge, hmem, hl]] at h
        exact (Except.error.inj h).symm
      | some m =>
        have hlen8 : sel.length = 8 := by
          rcases hinv with hall | h8
          · obtain ⟨e, he, hen, _⟩ := lookupModel_mem hl
            exact absurd (hen ▸ hall e he) hmem
          · exact h8
        have hi : i < sel.length := by simp at hbound; omega
        rw [show mustMerge pool (n :: rest) sel i =
            mustMerge pool rest (sel.set i (n, m)) (i + 1) by
          simp [mustMerge, hmem, hl, hi]] at h
        refine ih _ _ _ (by simp at hbound; omega) ?_ h
        right
        rw [List.length_set]
        exact hlen8

/-- Under the invariant, the must-include pass succeeds whenever every
name is in the pool: no store index can miss. -/
theorem mustMerge_ok_inv {Mat : Type} {pool : List (PoolEntry Mat)} :
    ∀ (names : List String) (sel : List (String × Mat)) (i : Nat),
      i + names.length ≤ 8 →
      ((∀ e ∈ pool, e.name ∈ sel.map Prod.fst) ∨ sel.length = 8) →
      (∀ n ∈ names, n ∈ pool.map PoolEntry.name) →
      ∃ sel2, mustMerge pool names sel i = Except.ok sel2 := by
  intro names
  induction names with
  | nil => intro sel i _ _ _; exact ⟨sel, rfl⟩
  | cons n rest ih =>
    intro sel i hbound hinv hin
    by_cases hmem : n ∈ sel.map Prod.fst
    · obtain ⟨sel2, h2⟩ := ih sel (i + 1) (by simp at hbound; omega) hinv
        (fun q hq => hin q (List.mem_cons_of_mem _ hq))
      exact ⟨sel2, by simpa [mustMerge, hmem] using h2⟩
    · have hs := lookupModel_isSome (hin n (List.mem_cons_self n rest))
      obtain ⟨m, hm⟩ := Option.isSome_iff_exists.mp hs
      have hlen8 : sel.length = 8 := by
        rcases hinv with hall | h8
        · obtain ⟨e, he, hen, _⟩ := lookupModel_mem hm
          exact absurd (hen ▸ hall e he) hmem
        · exact h8
      have hi : i < sel.length := by simp at hbound; omega
      obtain ⟨sel2, h2⟩ := ih (sel.set i (n, m)) (i + 1) (by simp at hbound; omega)
        (Or.inr (by rw [List.length_set]; exact hlen8))
        (fun q hq => hin q (List.mem_cons_of_mem _ hq))
      exact ⟨sel2, by simpa [mustMerge, hmem, hm, hi] using h2⟩

/-- C7 counterexample: a must-include name absent from the pool makes
select fail with a `KeyError`, so the configuration error is not the
only error the selector can raise. -/
theorem c7_counterexample :
    select onePool none (some ["ghost"]) = Except.error SelErr.keyError := by decide

/-- C7 amended: the configuration error is not the only error — a
must-include name absent from the pool raises a `KeyError` — but those
two are the selector's whole error surface: select never fails without
a must-include list, it completes whenever the list has at most 8
names all present in the pool, an oversized list fails with the
configuration error, and every error select raises is the
configuration error or the key error — in particular the index store
of the must-include pass can never fail, because a store requires a
pool name missing from the labels, which forces an 8-entry selection
with store indices at most 7. -/
theorem c7_error_paths :
    (∀ {Mat : Type} (pool : List (PoolEntry Mat)) (ref : Option Mat),
        ∃ sel, select pool ref none = Except.ok sel) ∧
    (∀ {Mat : Type} (pool : List (PoolEntry Mat)) (ref : Option Mat) (names : List String),
        names.length ≤ 8 → (∀ n ∈ names, n ∈ pool.map PoolEntry.name) →
        ∃ sel, select pool ref (some names) = Except.ok sel) ∧
    (∀ {Mat : Type} (pool : List (PoolEntry Mat)) (ref : Option Mat) (names : List String),
        8 < names.length → select pool ref (some names) = Except.error SelErr.valueError) ∧
    (∀ {Mat : Type} (pool : List (PoolEntry Mat)) (ref : Option Mat)
        (mustInclude : Option (List String)) (err : SelErr),
        select pool ref mustInclude = Except.error err →
        err = SelErr.valueError ∨ err = SelErr.keyError) := by
  refine ⟨?_, ?_, ?_, ?_⟩
  · intro Mat pool ref
    cases ref with
    | none =>
      obtain ⟨b, hb, _⟩ := baseSelection_none_ok pool
      exact ⟨b, (select_none_eq pool none).trans hb⟩
    | some r =>
      obtain ⟨f, hb, _⟩ := baseSelection_some_ok pool r
      exact ⟨f ++ [("EvoEF2", r)], (select_none_eq pool (some r)).trans hb⟩
  · intro Mat pool ref names h8 hin
    cases ref with
    | none =>
      obtain ⟨b, hb, _⟩ := baseSelection_none_ok pool
      rw [select_some_eq pool none names hb, if_pos h8]
      exact mustMerge_ok_inv names b 0 (by omega) (baseSelection_invariant pool none hb) hin
    | some r =>
      obtain ⟨f, hb, _⟩ := baseSelection_some_ok pool r
      rw [select_some_eq pool (some r) names hb, if_pos h8]
      exact mustMerge_ok_inv names (f ++ [("EvoEF2", r)]) 0 (by omega)
        (baseSelection_invariant pool (some r) hb) hin
  · intro Mat pool ref names h
    exact select_too_many pool ref names h
  · intro Mat pool ref mustInclude err hsel
    cases mustInclude with
    | none =>
      rw [select_none_eq] at hsel
      cases ref with
      | none =>
        obtain ⟨b, hb, _⟩ := baseSelection_none_ok pool
        rw [hb] at hsel
        exact absurd hsel (by simp)
      | some r =>
        obtain ⟨f, hb, _⟩ := baseSelection_some_ok pool r
        rw [hb] at hsel
        exact absurd hsel (by simp)
    | some names =>
      by_cases h8 : names.length ≤ 8
      · cases ref with
        | none =>
          obtain ⟨b, hb, _⟩ := baseSelection_none_ok pool
          rw [select_some_eq pool none names hb, if_pos h8] at hsel
          exact Or.inr (mustMerge_error_keyError names b 0 err (by omega)
            (baseSelection_invariant pool none hb) hsel)
        | some r =>
          obtain ⟨f, hb, _⟩ := baseSelection_some_ok pool r
          rw [select_some_eq pool (some r) names hb, if_pos h8] at hsel
          exact Or.inr (mustMerge_error_keyError names (f ++ [("EvoEF2", r)]) 0 err (by omega)
            (baseSelection_invariant pool (some r) hb) hsel)
      · rw [select_too_many pool ref names (by omega)] at hsel
        exact Or.inl (Except.error.inj hsel).symm

/-- C7 witness: the four parts of the amended claim at concrete
inputs, the last one at the key-error run of the counterexample. -/
theorem c7_witness :
    (∃ sel, select onePool none none = Except.ok sel) ∧
    (∃ sel, select onePool none (some ["a.csv"]) = Except.ok sel) ∧
    select onePool none (some ["a", "b", "c", "d", "e", "f", "g", "h", "i"]) =
      Except.error SelErr.valueError ∧
    (SelErr.keyError = SelErr.valueError ∨ SelErr.keyError = SelErr.keyError) :=
  ⟨c7_error_paths.1 onePool none,
   c7_error_paths.2.1 onePool none ["a.csv"] (by decide) (by decide),
   c7_error_paths.2.2.1 onePool none ["a", "b", "c", "d", "e", "f", "g", "h", "i"] (by decide),
   c7_error_paths.2.2.2 onePool none (some ["ghost"]) SelErr.keyError (by decide)⟩

theorem modelSummary_mem_modelEvents {Mat : Type} (ptm : String)
    (pdbMap : List (String × List String)) (torsions : Bool) (e : PoolEntry Mat) :
    VisEvent.modelSummary (ptm ++ "/" ++ e.name) ∈ modelEvents ptm pdbMap torsions e := by
  cases hl : lookupPdbs pdbMap e.name <;> simp [modelEvents, hl]

theorem compareAccuracy_not_mem_modelEvents {Mat : Type} (s ptm : String)
    (pdbMap : List (String × List String)) (torsions : Bool) (e : PoolEntry Mat) :
    VisEvent.compareAccuracy s ∉ modelEvents ptm pdbMap torsions e := by
  cases hl : lookupPdbs pdbMap e.name <;> cases torsions <;> simp [modelEvents, hl]

theorem compareAccuracy_not_mem_perModel {Mat : Type} (s ptm : String)
    (pool : List (PoolEntry Mat)) (pdbMap : List (String × List String)) (torsions : Bool) :
    VisEvent.compareAccuracy s ∉ pool.flatMap (modelEvents ptm pdbMap torsions) := by
  intro h
  obtain ⟨e, _, he⟩ := List.mem_flatMap.mp h
  exact compareAccuracy_not_mem_modelEvents s ptm pdbMap torsions e he

theorem string_slash_evoef (ptm : String) :
    ptm ++ "/EvoEF2" = (ptm ++ "/") ++ "EvoEF2" := by
  rw [String.append_assoc]
  rfl

/-! ### Claim C1: timing of the configuration error -/

/-- C1 counterexample: with a must-include list of 9 names and a
one-model pool, the configuration error is raised, but only after the
per-model visualization work — the trace of issued visualization
requests is nonempty, contradicting "before any visualization work
begins". -/
theorem c1_counterexample :
    (compareModels "p" onePool [] false none
        (some ["a", "b", "c", "d", "e", "f", "g", "h", "i"])).2 =
      Except.error SelErr.valueError ∧
    (compareModels "p" onePool [] false none
        (some ["a", "b", "c", "d", "e", "f", "g", "h", "i"])).1 ≠ [] := by decide

/-- C1 amended: a must-include list longer than 8 makes the comparison
abort with the configuration error and produce no selection, but the
error is raised only after the per-model visualization work: every
pool model's summary request is already in the trace, while the final
cross-model comparison request never is.  (The hypothesis excludes the
one run — empty pool, reference, torsions — that dies of the unbound
loop variable before the length check.) -/
theorem c1_config_error_timing {Mat : Type} (ptm : String) (pool : List (PoolEntry Mat))
    (pdbMap : List (String × List String)) (torsions : Bool) (ref : Option Mat)
    (names : List String) (h8 : 8 < names.length)
    (hne : ¬(torsions = true ∧ ref.isSome = true ∧ pool = [])) :
    (compareModels ptm pool pdbMap torsions ref (some names)).2 =
      Except.error SelErr.valueError ∧
    (∀ e ∈ pool, VisEvent.modelSummary (ptm ++ "/" ++ e.name) ∈
      (compareModels ptm pool pdbMap torsions ref (some names)).1) ∧
    VisEvent.compareAccuracy ptm ∉
      (compareModels ptm pool pdbMap torsions ref (some names)).1 := by
  cases ref with
  | none =>
    have hsel := select_too_many pool none names h8
    have hcm : compareModels ptm pool pdbMap torsions none (some names) =
        (pool.flatMap (modelEvents ptm pdbMap torsions),
         Except.error SelErr.valueError) := by
      simp [compareModels, hsel]
    rw [hcm]
    refine ⟨rfl, ?_, ?_⟩
    · intro e he
      exact List.mem_flatMap.mpr ⟨e, he, modelSummary_mem_modelEvents ptm pdbMap torsions e⟩
    · exact compareAccuracy_not_mem_perModel ptm ptm pool pdbMap torsions
  | some r =>
    have hsel := select_too_many pool (some r) names h8
    cases torsions with
    | false =>
      have hcm : compareModels ptm pool pdbMap false (some r) (some names) =
          (pool.flatMap (modelEvents ptm pdbMap false) ++
            [VisEvent.modelSummary (ptm ++ "/EvoEF2")],
           Except.error SelErr.valueError) := by
        simp [compareModels, hsel]
      rw [hcm]
      refine ⟨rfl, ?_, ?_⟩
      · intro e he
        exact List.mem_append.mpr (Or.inl
          (List.mem_flatMap.mpr ⟨e, he, modelSummary_mem_modelEvents ptm pdbMap false e⟩))
      · intro hmem
        rcases List.mem_append.mp hmem with h | h
        · exact compareAccuracy_not_mem_perModel ptm ptm pool pdbMap false h
        · simp at h
    | true =>
      have hpool : pool ≠ [] := fun hp => hne ⟨rfl, rfl, hp⟩
      cases hlast : pool.getLast? with
      | none => exact absurd (List.getLast?_eq_none_iff.mp hlast) hpool
      | some last =>
        have hcm : compareModels ptm pool pdbMap true (some r) (some names) =
            (pool.flatMap (modelEvents ptm pdbMap true) ++
              [VisEvent.modelSummary (ptm ++ "/EvoEF2")] ++
              [VisEvent.ramachandran (ptm ++ "/" ++ last.name)],
             Except.error SelErr.valueError) := by
          simp [compareModels, hsel, hlast]
        rw [hcm]
        refine ⟨rfl, ?_, ?_⟩
        · intro e he
          exact List.mem_append.mpr (Or.inl (List.mem_append.mpr (Or.inl
            (List.mem_flatMap.mpr ⟨e, he, modelSummary_mem_modelEvents ptm pdbMap true e⟩))))
        · intro hmem
          rcases List.mem_append.mp hmem with h | h
          · rcases List.mem_append.mp h with h2 | h2
            · exact compareAccuracy_not_mem_perModel ptm ptm pool pdbMap true h2
            · simp at h2
          · simp at h

/-- C1 witness: the amended timing law at the counterexample's
concrete input. -/
theorem c1_witness :
    (compareModels "p" onePool [] false none
        (some ["a", "b", "c", "d", "e", "f", "g", "h", "i"])).2 =
      Except.error SelErr.valueError ∧
    (∀ e ∈ onePool, VisEvent.modelSummary ("p" ++ "/" ++ e.name) ∈
      (compareModels "p" onePool [] false none
        (some ["a", "b", "c", "d", "e", "f", "g", "h", "i"])).1) ∧
    VisEvent.compareAccuracy "p" ∉
      (compareModels "p" onePool [] false none
        (some ["a", "b", "c", "d", "e", "f", "g", "h", "i"])).1 :=
  c1_config_error_timing "p" onePool [] false none
    ["a", "b", "c", "d", "e", "f", "g", "h", "i"] (by decide) (by decide)

/-! ### Claim C10: the reference model's Ramachandran path bug -/

/-- C10: with a reference, the torsions flag and a nonempty pool, the
reference's Ramachandran request (the one right after the reference's
summary) is issued with a path built from the last pool model's name,
which differs from the path built from the reference's own name; with
an empty pool that request dies of the unbound loop variable
(`NameError`). -/
theorem c10_evoef_torsion_path :
    (∀ {Mat : Type} (ptm : String) (pool : List (PoolEntry Mat))
        (pdbMap : List (String × List String)) (r : Mat) (mI : Option (List String))
        (last : PoolEntry Mat),
        pool.getLast? = some last → last.name ≠ "EvoEF2" →
        ∃ pre post,
          (compareModels ptm pool pdbMap true (some r) mI).1 =
            pre ++ [VisEvent.modelSummary (ptm ++ "/EvoEF2"),
                    VisEvent.ramachandran (ptm ++ "/" ++ last.name)] ++ post ∧
          ptm ++ "/" ++ last.name ≠ ptm ++ "/EvoEF2") ∧
    (∀ {Mat : Type} (ptm : String) (pdbMap : List (String × List String)) (r : Mat)
        (mI : Option (List String)),
        (compareModels ptm ([] : List (PoolEntry Mat)) pdbMap true (some r) mI).2 =
          Except.error SelErr.nameError) := by
  constructor
  · intro Mat ptm pool pdbMap r mI last hlast hname
    have hpath : ptm ++ "/" ++ last.name ≠ ptm ++ "/EvoEF2" := by
      rw [string_slash_evoef]
      exact string_append_right_inj (ptm ++ "/") hname
    cases hsel : select pool (some r) mI with
    | ok sel =>
      refine ⟨pool.flatMap (modelEvents ptm pdbMap true),
        [VisEvent.compareAccuracy ptm], ?_, hpath⟩
      simp [compareModels, hlast, hsel]
    | error err =>
      refine ⟨pool.flatMap (modelEvents ptm pdbMap true), [], ?_, hpath⟩
      simp [compareModels, hlast, hsel]
  · intro Mat ptm pdbMap r mI
    simp [compareModels]

/-- C10 witness: the request following the reference's summary uses
the last pool model's name on a concrete one-model pool, and the
empty-pool run fails. -/
theorem c10_witness :
    (∃ pre post,
        (compareModels "p" onePool [] true (some 3) none).1 =
          pre ++ [VisEvent.modelSummary ("p" ++ "/EvoEF2"),
                  VisEvent.ramachandran ("p" ++ "/" ++ "a.csv")] ++ post ∧
        "p" ++ "/" ++ "a.csv" ≠ "p" ++ "/EvoEF2") ∧
    (compareModels "p" ([] : List (PoolEntry Nat)) [] true (some 3) none).2 =
      Except.error SelErr.nameError :=
  ⟨c10_evoef_torsion_path.1 "p" onePool [] 3 none ⟨"a.csv", mkRat 1 2, 0⟩
      (by decide) (by decide),
   c10_evoef_torsion_path.2 "p" [] 3 none⟩

end SeqBench
